import Mathlib

/-!
Verification development for the NCSC CAF scraper (src/main.py).

The development shallowly embeds the parts of the program the claims are
about: a DOM model of parsed HTML (BeautifulSoup searches, text
extraction), link discovery with its sort, the section extractors with
their sentinel fallbacks, the three-row PCF table extraction including the
pandas DataFrame construction and its to_dict serialization, the
functools.cached_property memoization discipline, and the final unicode
normalization pass.  Machine strings are modelled as Lean Strings (lists
of characters); Python whitespace is modelled by Char.isWhitespace; the
pandas NaN/None padding marker is modelled by Option.none.
-/

namespace NCSC

/-! ## Character and string utilities (models of Python str operations) -/

/-- Model of Python whitespace (`str.strip` with no argument). -/
def pyIsSpace (c : Char) : Bool := c.isWhitespace

/-- `l.dropWhile pyIsSpace` from both ends: the character-list model of
Python `str.strip()` as used by `get_text(strip=True)`. -/
def stripL (l : List Char) : List Char :=
  (((l.dropWhile pyIsSpace).reverse).dropWhile pyIsSpace).reverse

/-- Model of Python `str.strip()`. -/
def pyStrip (s : String) : String := String.mk (stripL s.data)

/-- Lexicographic comparison of character lists by code point: the model of
Python string comparison used by `list.sort(key=...)`. -/
def lexLe : List Char → List Char → Bool
  | [], _ => true
  | _ :: _, [] => false
  | a :: as, b :: bs => if a < b then true else if a = b then lexLe as bs else false

/-- Substring test: the model of Python `needle in hay` on strings and of
`re.search` for a pattern of the shape `\s*word\s*` (which succeeds exactly
when `word` occurs as a substring, since `\s*` may match empty). -/
def containsSub (needle : List Char) : List Char → Bool
  | [] => needle.isPrefixOf []
  | c :: t => if needle.isPrefixOf (c :: t) then true else containsSub needle t

/-- Substring test on strings. -/
def strIn (needle hay : String) : Bool := containsSub needle.data hay.data

/-- Split a character list at whitespace, accumulating the current word
reversed; the model of splitting an HTML `class` attribute into tokens. -/
def splitWSAux : List Char → List Char → List (List Char)
  | [], cur => [cur.reverse]
  | c :: t, cur => if pyIsSpace c then cur.reverse :: splitWSAux t [] else splitWSAux t (c :: cur)

/-- The whitespace-separated tokens of a string (empty tokens removed). -/
def wsTokens (s : String) : List (List Char) :=
  (splitWSAux s.data []).filter (fun w => !w.isEmpty)

/-! ## DOM model

A parsed HTML document is a tree of element and text nodes.  This models
the BeautifulSoup view of a page: `find_all` searches all descendants in
document (preorder) order, `get_text` concatenates the descendant text
fragments, `tag.string` is the unique text child reached through
single-child wrappers. -/

inductive Node where
  | text (s : String) : Node
  | elem (tag : String) (attrs : List (String × String)) (children : List Node) : Node

mutual

/-- All descendants of a node in document (preorder) order; the node itself
is not included, matching BeautifulSoup `find_all`. -/
def Node.descendants : Node → List Node
  | .text _ => []
  | .elem _ _ cs => descendantsList cs

def descendantsList : List Node → List Node
  | [] => []
  | c :: cs => c :: Node.descendants c ++ descendantsList cs

end

/-- Model of BeautifulSoup `find_all(predicate)`. -/
def Node.find_all (n : Node) (p : Node → Bool) : List Node :=
  (Node.descendants n).filter p

/-- Model of BeautifulSoup `find(predicate)`: first matching descendant. -/
def Node.findFirst (n : Node) (p : Node → Bool) : Option Node :=
  (Node.find_all n p).head?

mutual

/-- First matching descendant together with its parent node, searching in
document (preorder) order; models `soup.find(...)` followed by `.parent`
(the parent of a found descendant always exists inside the document). -/
def Node.findWP (p : Node → Bool) : Node → Option (Node × Node)
  | .text _ => none
  | .elem t a cs => findWPList p (.elem t a cs) cs

def findWPList (p : Node → Bool) (par : Node) : List Node → Option (Node × Node)
  | [] => none
  | c :: cs =>
    if p c then some (c, par)
    else
      match Node.findWP p c with
      | some r => some r
      | none => findWPList p par cs

end

mutual

/-- The descendant text fragments of a node in document order; models the
sequence of NavigableStrings BeautifulSoup's `get_text` concatenates. -/
def Node.textFragments : Node → List String
  | .text s => [s]
  | .elem _ _ cs => textFragmentsList cs

def textFragmentsList : List Node → List String
  | [] => []
  | c :: cs => Node.textFragments c ++ textFragmentsList cs

end

mutual

/-- Model of BeautifulSoup `tag.string`: the unique text child, reached
through single-child element wrappers. -/
def Node.nodeString : Node → Option String
  | .text s => some s
  | .elem _ _ cs => nodeStringList cs

def nodeStringList : List Node → Option String
  | [c] => Node.nodeString c
  | _ => none

end

/-- The raw concatenated text, as character list; model of `tag.text`. -/
def getTextRawL (n : Node) : List Char :=
  ((Node.textFragments n).map String.data).flatten

/-- Model of BeautifulSoup `tag.text` / `get_text()`. -/
def Node.getTextRaw (n : Node) : String := String.mk (getTextRawL n)

/-- The concatenation of the stripped text fragments, as character list;
model of `get_text(strip=True)`. -/
def getTextStripL (n : Node) : List Char :=
  ((Node.textFragments n).map (fun s => stripL s.data)).flatten

/-- Model of BeautifulSoup `get_text(strip=True)`: each text fragment is
stripped of surrounding whitespace and the results are concatenated. -/
def Node.getTextStrip (n : Node) : String := String.mk (getTextStripL n)

/-- The tag name of an element node. -/
def Node.tagName : Node → Option String
  | .text _ => none
  | .elem t _ _ => some t

/-- Attribute lookup on an element node. -/
def Node.attr (n : Node) (k : String) : Option String :=
  match n with
  | .text _ => none
  | .elem _ attrs _ => attrs.lookup k

/-- Tag-name test, e.g. `find_all("tr")`. -/
def isTagNamed (t : String) (n : Node) : Bool := n.tagName == some t

/-- Model of BeautifulSoup's class matching for `attrs={"class": cls}`:
the `class` attribute value, split at whitespace, contains `cls`. -/
def hasClassToken (cls : String) (n : Node) : Bool :=
  match n.attr "class" with
  | none => false
  | some v => (wsTokens v).contains cls.data

/-- Model of `find("h2", string=re.compile(r"\s*word\s*"))`: an `h2` tag
whose `.string` exists and contains `word` as a substring. -/
def isH2WithWord (word : String) (n : Node) : Bool :=
  (isTagNamed "h2" n) &&
    (match n.nodeString with
     | none => false
     | some s => strIn word s)

/-- Model of `BeautifulSoup()`: the empty document (no children at all). -/
def emptySoup : Node := Node.elem "[document]" [] []

example : Node.find_all (Node.elem "d" [] [Node.text "x", Node.elem "p" [] []]) (isTagNamed "p") =
    [Node.elem "p" [] []] := rfl

example : Node.findWP (isTagNamed "p") (Node.elem "d" [] [Node.elem "p" [] []]) =
    some (Node.elem "p" [] [], Node.elem "d" [] [Node.elem "p" [] []]) := rfl

example : Node.getTextStrip (Node.elem "p" [] [Node.text "  a ", Node.text " b "]) = "ab" := rfl

example : Node.getTextRaw (Node.elem "p" [] [Node.text "  a ", Node.text " b "]) = "  a  b " := rfl

example : hasClassToken "subHeading" (Node.elem "h1" [("class", "big subHeading")] []) = true := rfl

example : isH2WithWord "Principle" (Node.elem "h2" [] [Node.text " Principle x"]) = true := rfl

/-! ## Link discovery (`get_caf_objective_links` / `get_caf_principle_links`)

A fetched page is modelled by the plain-HTTP status code of the existence
check together with the rendered DOM the webdriver would produce.  URL
values are modelled by their host and by the string rendering of their
`raw_path` (the sort key `str(x.raw_path)` of the source); resolution of an
href against the base URL (`base.join(href)`, an httpx library call) is a
parameter. -/

structure URLm where
  host : String
  raw_path : String
deriving Repr, DecidableEq

structure FetchEnv where
  status : Nat
  rendered : Node

/-- `HTTPStatus.NOT_FOUND`. -/
def notFoundStatus : Nat := 404

/-- Model of `soup.find_all("a", href=True)`. -/
def hrefAnchors (page : Node) : List Node :=
  page.find_all (fun n => isTagNamed "a" n && (n.attr "href").isSome)

/-- The href attribute values of all anchors with an href, in document order. -/
def anchorHrefs (page : Node) : List String :=
  (hrefAnchors page).filterMap (fun n => n.attr "href")

/-- The sort order of link discovery: ascending by the path component as a
string (`key=lambda x: str(x.raw_path)`). -/
def pathLe (a b : URLm) : Prop := lexLe a.raw_path.data b.raw_path.data = true

instance : DecidableRel pathLe :=
  fun a b => inferInstanceAs (Decidable (lexLe a.raw_path.data b.raw_path.data = true))

/-- The filtered, base-resolved links of a rendered page: hrefs that contain
`substr`, resolved via `join`, before sorting. -/
def resolvedLinks (substr : String) (join : String → URLm) (page : Node) : List URLm :=
  ((anchorHrefs page).filter (fun h => strIn substr h)).map join

/-- Model of `get_caf_objective_links`: not-found short-circuits to the
empty list with no render; otherwise the page is rendered (second component
counts renders), anchors filtered on "objective", resolved and sorted. -/
def get_caf_objective_links (join : String → URLm) (env : FetchEnv) : List URLm × Nat :=
  if env.status = notFoundStatus then ([], 0)
  else (List.insertionSort pathLe (resolvedLinks "objective" join env.rendered), 1)

/-- Model of `get_caf_principle_links`; identical to the objective variant
except for the filter substring. -/
def get_caf_principle_links (join : String → URLm) (env : FetchEnv) : List URLm × Nat :=
  if env.status = notFoundStatus then ([], 0)
  else (List.insertionSort pathLe (resolvedLinks "principle" join env.rendered), 1)

/-! ## pandas model and PCF table extraction -/

/-- The model of a pandas DataFrame as built by `extract_pcf_table`: column
labels and row-major data, absent cells (`None`/NaN) as `Option.none`. -/
structure DataFrame where
  columns : List String
  data : List (List (Option String))
deriving Repr, DecidableEq

/-- The width pandas infers from a list of row tuples: the longest row. -/
def dfWidth (data : List (List (Option String))) : Nat :=
  data.foldr (fun r acc => max r.length acc) 0

/-- pandas pads ragged row tuples with missing markers up to the width. -/
def padRow (w : Nat) (r : List (Option String)) : List (Option String) :=
  r ++ List.replicate (w - r.length) none

/-- Model of `pd.DataFrame(data, columns=...)` on a list of row tuples:
ragged rows are padded with the missing marker to the widest row, and a
`ValueError` is raised when the number of column labels differs from that
width (for nonempty data). -/
def pdDataFrame (data : List (List (Option String))) (columns : List String) :
    Except String DataFrame :=
  if data.isEmpty then .ok ⟨columns, []⟩
  else if columns.length = dfWidth data then .ok ⟨columns, data.map (padRow (dfWidth data))⟩
  else .error "columns passed, passed data had a different number of columns"

/-- `table_tag.find_all("tr")`. -/
def trRows (t : Node) : List Node := t.find_all (isTagNamed "tr")

/-- The column headers: text of each `th` of row 0 (`tr_tags[0]`). -/
def columnsOf (t : Node) : List String :=
  (((trRows t).getD 0 emptySoup).find_all (isTagNamed "th")).map Node.getTextStrip

/-- The column subheaders: text of each `td` of row 1 (`tr_tags[1]`). -/
def subheadersOf (t : Node) : List String :=
  (((trRows t).getD 1 emptySoup).find_all (isTagNamed "td")).map Node.getTextStrip

/-- The per-column paragraph fragment lists of the last row (`tr_tags[-1]`):
one `td` per column, each holding its `p` texts in document order. -/
def fragListsOf (t : Node) : List (List String) :=
  (((trRows t).getLastD emptySoup).find_all (isTagNamed "td")).map
    (fun td => (td.find_all (isTagNamed "p")).map Node.getTextStrip)

/-- The length of the longest per-column fragment list. -/
def maxColLen (cols : List (List String)) : Nat :=
  cols.foldr (fun l acc => max l.length acc) 0

/-- Model of `itertools.zip_longest(*cols)` with the default `None` fill:
row `i` is the tuple of each column's `i`-th entry, `none` where a shorter
column has no such entry; the number of rows is the longest column's length. -/
def zipLongest (cols : List (List String)) : List (List (Option String)) :=
  (List.range (maxColLen cols)).map (fun i => cols.map (fun c => getElem? c i))

/-- The row tuples handed to the DataFrame constructor: the subheader tuple
followed by the transposed per-column fragment lists. -/
def pcfTableData (t : Node) : List (List (Option String)) :=
  ((subheadersOf t).map some) :: zipLongest (fragListsOf t)

/-- Model of `Principle.extract_pcf_table`: a table whose `tr` count is not
exactly 3 raises `NotImplementedError`; otherwise the header texts, the
subheader tuple and the zip-longest transpose of the last row's per-column
paragraph texts are assembled into a DataFrame (which itself raises when the
label count mismatches the data width). -/
def extract_pcf_table (t : Node) : Except String DataFrame :=
  if (trRows t).length ≠ 3 then .error "Extraction only support three row pcf tables."
  else pdDataFrame (pcfTableData t) (columnsOf t)

/-! ## Principle and Objective computed fields -/

/-- `content.find("h1", attrs={"class": "subHeading"})`, shared by
`Principle.heading` and `Objective.heading`. -/
def findSubHeading (doc : Node) : Option Node :=
  doc.findFirst (fun n => isTagNamed "h1" n && hasClassToken "subHeading" n)

/-- Model of `Principle.heading`: stripped text of the subheading, or the
sentinel when absent. -/
def Principle.heading (doc : Node) : String :=
  match findSubHeading doc with
  | none => "error determining heading"
  | some tag => tag.getTextStrip

/-- Model of `Objective.heading`: the raw (unstripped) `tag.text` of the
subheading, or the sentinel when absent. -/
def Objective.heading (doc : Node) : String :=
  match findSubHeading doc with
  | none => "error determining heading"
  | some tag => tag.getTextRaw

/-- The shared shape of `Principle.principle` / `description` / `guidance`:
find the first `h2` whose string matches `\s*word\s*`, take its parent's
paragraphs, and fall back to the one-element sentinel sequence when the
heading or the paragraphs are absent.  (In the source a found tag's parent
can in addition be `None`; in a document tree a found descendant always has
a parent, so that fallback branch is vacuous here and both it and the
no-heading branch return the same sentinel.) -/
def extractSection (doc : Node) (word : String) (sentinel : String) : List String :=
  match Node.findWP (isH2WithWord word) doc with
  | none => [sentinel]
  | some pr =>
    let p_tags := pr.2.find_all (isTagNamed "p")
    if p_tags.isEmpty then [sentinel]
    else p_tags.map Node.getTextStrip

/-- Model of `Principle.principle`. -/
def Principle.principle (doc : Node) : List String :=
  extractSection doc "Principle" "error determining principle"

/-- Model of `Principle.description`. -/
def Principle.description (doc : Node) : List String :=
  extractSection doc "Description" "error determining description"

/-- Model of `Principle.guidance`. -/
def Principle.guidance (doc : Node) : List String :=
  extractSection doc "Guidance" "error determining guidance"

/-- `find_all("div", attrs={"class": "pcf-BodyText"})`. -/
def pcfBlocks (doc : Node) : List Node :=
  doc.find_all (fun n => isTagNamed "div" n && hasClassToken "pcf-BodyText" n)

/-- The PCF blocks that contain a table, as filtered by the source. -/
def filteredPcfBlocks (doc : Node) : List Node :=
  (pcfBlocks doc).filter (fun b => (b.findFirst (isTagNamed "table")).isSome)

/-- The heading of a PCF block: text of its first `h3`, sentinel on absence. -/
def pcfHeadingOf (b : Node) : String :=
  match b.findFirst (isTagNamed "h3") with
  | none => "error determining pcf heading"
  | some t => t.getTextStrip

/-- The details of a PCF block: texts of its `em` descendants, sentinel
sequence on absence (the source reuses the guidance sentinel text here). -/
def pcfDetailsOf (b : Node) : List String :=
  let ems := b.find_all (isTagNamed "em")
  if ems.isEmpty then ["error determining guidance"] else ems.map Node.getTextStrip

/-- Extraction of one PCF block: optional `h3` heading (sentinel on
absence), `em` detail texts (sentinel sequence on absence), and the table
extraction, whose exception propagates. -/
def pcfOfBlock (b : Node) : Except String (String × List String × DataFrame) :=
  match b.findFirst (isTagNamed "table") with
  | none => Except.error "NoneType has no tables"
  | some tb => (extract_pcf_table tb).map (fun df => (pcfHeadingOf b, pcfDetailsOf b, df))

/-- Model of `Principle.pcfs`: empty when no block qualifies, otherwise the
per-block extractions in document order (an exception from any table
extraction propagates). -/
def Principle.pcfs (doc : Node) : Except String (List (String × List String × DataFrame)) :=
  if (filteredPcfBlocks doc).isEmpty then .ok []
  else (filteredPcfBlocks doc).mapM pcfOfBlock

/-- Model of `pd.DataFrame.to_dict()` (default orient): an association of
each column label with the association of row index to that column's value,
indices in row order `0, 1, ...`. -/
def DataFrame.to_dict (df : DataFrame) : List (String × List (Nat × Option String)) :=
  (List.range df.columns.length).map (fun j =>
    (df.columns.getD j "", df.data.enum.map (fun ir => (ir.1, ir.2.getD j none))))

/-- Model of `Principle.serialize_pcfs`: each `(heading, details, df)`
triple keeps its heading and details and replaces the DataFrame with its
`to_dict()` form. -/
def serialize_pcfs (pcfs : List (String × List String × DataFrame)) :
    List (String × List String × List (String × List (Nat × Option String))) :=
  pcfs.map (fun pcf => (pcf.1, pcf.2.1, pcf.2.2.to_dict))

/-! ## Memoized computed fields (`functools.cached_property`)

Each entity instance owns a cache with one optional slot per computed
field; an access returns the cached value when present and otherwise
computes, stores and returns it.  The third component of each access
result counts webdriver render calls (`driver.get`). -/

/-- Model of `_content`: the plain-HTTP existence check first; not-found
short-circuits to the empty soup with no render, otherwise the page is
rendered once. -/
def renderContent (env : FetchEnv) : Node × Nat :=
  if env.status = notFoundStatus then (emptySoup, 0) else (env.rendered, 1)

structure PCache where
  cContent : Option Node
  cHeading : Option String
  cPrinciple : Option (List String)
  cDescription : Option (List String)
  cGuidance : Option (List String)
  cPcfs : Option (List (String × List String × DataFrame))

def emptyPCache : PCache := ⟨none, none, none, none, none, none⟩

/-- Memoized access to `Principle._content`. -/
def accessContent (env : FetchEnv) (s : PCache) : Node × PCache × Nat :=
  match s.cContent with
  | some v => (v, s, 0)
  | none =>
    let r := renderContent env
    (r.1, { s with cContent := some r.1 }, r.2)

/-- Memoized access to `Principle.heading` (computing `_content` through its
own cache first, as the property body does). -/
def accessHeading (env : FetchEnv) (s : PCache) : String × PCache × Nat :=
  match s.cHeading with
  | some v => (v, s, 0)
  | none =>
    let r := accessContent env s
    let v := Principle.heading r.1
    (v, { r.2.1 with cHeading := some v }, r.2.2)

/-- Memoized access to `Principle.principle`. -/
def accessPrinciple (env : FetchEnv) (s : PCache) : List String × PCache × Nat :=
  match s.cPrinciple with
  | some v => (v, s, 0)
  | none =>
    let r := accessContent env s
    let v := Principle.principle r.1
    (v, { r.2.1 with cPrinciple := some v }, r.2.2)

/-- Memoized access to `Principle.description`. -/
def accessDescription (env : FetchEnv) (s : PCache) : List String × PCache × Nat :=
  match s.cDescription with
  | some v => (v, s, 0)
  | none =>
    let r := accessContent env s
    let v := Principle.description r.1
    (v, { r.2.1 with cDescription := some v }, r.2.2)

/-- Memoized access to `Principle.guidance`. -/
def accessGuidance (env : FetchEnv) (s : PCache) : List String × PCache × Nat :=
  match s.cGuidance with
  | some v => (v, s, 0)
  | none =>
    let r := accessContent env s
    let v := Principle.guidance r.1
    (v, { r.2.1 with cGuidance := some v }, r.2.2)

/-- Memoized access to `Principle.pcfs`.  A raised table-shape exception
propagates and (as with `cached_property`) nothing is stored for the field;
on success the value is cached. -/
def accessPcfs (env : FetchEnv) (s : PCache) :
    Except String (List (String × List String × DataFrame)) × PCache × Nat :=
  match s.cPcfs with
  | some v => (.ok v, s, 0)
  | none =>
    let r := accessContent env s
    match Principle.pcfs r.1 with
    | .ok v => (.ok v, { r.2.1 with cPcfs := some v }, r.2.2)
    | .error e => (.error e, r.2.1, r.2.2)

structure OCache where
  cContent : Option Node
  cHeading : Option String
  cPrinciples : Option (List URLm)

def emptyOCache : OCache := ⟨none, none, none⟩

/-- Memoized access to `Objective._content`. -/
def accessOContent (env : FetchEnv) (s : OCache) : Node × OCache × Nat :=
  match s.cContent with
  | some v => (v, s, 0)
  | none =>
    let r := renderContent env
    (r.1, { s with cContent := some r.1 }, r.2)

/-- Memoized access to `Objective.heading`. -/
def accessOHeading (env : FetchEnv) (s : OCache) : String × OCache × Nat :=
  match s.cHeading with
  | some v => (v, s, 0)
  | none =>
    let r := accessOContent env s
    let v := Objective.heading r.1
    (v, { r.2.1 with cHeading := some v }, r.2.2)

/-- Memoized access to `Objective.principles`: the first access runs link
discovery on the objective's own page (its own fetch and render, not the
cached `_content`); a Principle is just a link wrapper, so the value is the
discovered link list. -/
def accessPrinciples (join : String → URLm) (env : FetchEnv) (s : OCache) :
    List URLm × OCache × Nat :=
  match s.cPrinciples with
  | some v => (v, s, 0)
  | none =>
    let r := get_caf_principle_links join env
    (r.1, { s with cPrinciples := some r.1 }, r.2)

/-! ## Output normalization (`main`) -/

/-- The literal substitution table of `main`: narrow no-break space to
regular space, right single quotation mark to apostrophe. -/
def unicode_replacements : List (Char × String) := [('\u202F', " "), ('\u2019', "\x27")]

/-- Model of `pattern.sub` for the alternation of the (single-character)
replacement keys: scan left to right, replacing each matched character by
its substitute and keeping everything else. -/
def reSubChars : List Char → List Char
  | [] => []
  | c :: cs =>
    match unicode_replacements.lookup c with
    | some r => r.data ++ reSubChars cs
    | none => c :: reSubChars cs

/-- The normalization pass `main` applies to the serialized JSON text. -/
def normalizeOutput (s : String) : String := String.mk (reSubChars s.data)

/-- Modelled from the spec: the per-character description of the
normalization pass ("narrow no-break space → regular space, right single
quotation mark → apostrophe", no other characters altered). -/
def specReplaceChar (c : Char) : Char :=
  if c = '\u202F' then ' ' else if c = '\u2019' then '\x27' else c

example : normalizeOutput "a\u202Fb\u2019c" = "a b\x27c" := rfl

example : extract_pcf_table (Node.elem "table" [] [Node.elem "tr" [] []]) =
    .error "Extraction only support three row pcf tables." := rfl

/-! ## Order properties of the sort key comparison -/

theorem lexLe_total (a b : List Char) : lexLe a b = true ∨ lexLe b a = true := by
  induction a generalizing b with
  | nil => exact Or.inl rfl
  | cons x xs ih =>
    cases b with
    | nil => exact Or.inr rfl
    | cons y ys =>
      rcases lt_trichotomy x y with h | h | h
      · exact Or.inl (by simp [lexLe, h])
      · subst h
        rcases ih ys with h2 | h2
        · exact Or.inl (by simp [lexLe, h2])
        · exact Or.inr (by simp [lexLe, h2])
      · exact Or.inr (by simp [lexLe, h])

theorem lexLe_trans {a b c : List Char} (h1 : lexLe a b = true) (h2 : lexLe b c = true) :
    lexLe a c = true := by
  induction a generalizing b c with
  | nil => rfl
  | cons x xs ih =>
    cases b with
    | nil => exact absurd h1 (by simp [lexLe])
    | cons y ys =>
      cases c with
      | nil => exact absurd h2 (by simp [lexLe])
      | cons z zs =>
        simp only [lexLe] at h1 h2 ⊢
        rcases lt_trichotomy x y with hxy | hxy | hxy
        · rcases lt_trichotomy y z with hyz | hyz | hyz
          · simp [lt_trans hxy hyz]
          · subst hyz; simp [hxy]
          · rw [if_neg (asymm hyz), if_neg (ne_of_gt hyz)] at h2
            exact absurd h2 (by simp)
        · subst hxy
          rw [if_neg (lt_irrefl x), if_pos rfl] at h1
          rcases lt_trichotomy x z with hxz | hxz | hxz
          · simp [hxz]
          · subst hxz
            rw [if_neg (lt_irrefl x), if_pos rfl] at h2
            simp [lt_irrefl, ih h1 h2]
          · rw [if_neg (asymm hxz), if_neg (ne_of_gt hxz)] at h2
            exact absurd h2 (by simp)
        · rw [if_neg (asymm hxy), if_neg (ne_of_gt hxy)] at h1
          exact absurd h1 (by simp)

instance : IsTotal URLm pathLe := ⟨fun a b => lexLe_total a.raw_path.data b.raw_path.data⟩

instance : IsTrans URLm pathLe := ⟨fun _ _ _ h1 h2 => lexLe_trans h1 h2⟩

/-! ## General list lemmas -/

theorem map_self_of_fix {α : Type} {f : α → α} :
    ∀ {l : List α}, (∀ x ∈ l, f x = x) → l.map f = l := by
  intro l h
  induction l with
  | nil => rfl
  | cons x t ih =>
    simp only [List.map_cons, h x (by simp)]
    rw [ih (fun y hy => h y (by simp [hy]))]

theorem head?_dropWhile_false {α : Type} (p : α → Bool) :
    ∀ {l : List α} {c : α}, ((l.dropWhile p).head? = some c) → p c = false := by
  intro l
  induction l with
  | nil => intro c h; simp at h
  | cons a t ih =>
    intro c h
    rw [List.dropWhile_cons] at h
    by_cases hp : p a = true
    · rw [if_pos hp] at h; exact ih h
    · rw [if_neg hp] at h
      simp at h
      subst h
      simpa using hp

theorem getLast?_dropWhile_sub {α : Type} (p : α → Bool) :
    ∀ {l : List α} {c : α}, ((l.dropWhile p).getLast? = some c) → l.getLast? = some c := by
  intro l
  induction l with
  | nil => intro c h; simp at h
  | cons a t ih =>
    intro c h
    rw [List.dropWhile_cons] at h
    by_cases hp : p a = true
    · rw [if_pos hp] at h
      have h2 := ih h
      cases t with
      | nil => simp at h2
      | cons b t2 => rw [List.getLast?_cons_cons]; exact h2
    · rwa [if_neg hp] at h

theorem stripL_head_clean {l : List Char} {c : Char} (h : (stripL l).head? = some c) :
    pyIsSpace c = false := by
  unfold stripL at h
  rw [List.head?_reverse] at h
  have h2 := getLast?_dropWhile_sub pyIsSpace h
  rw [List.getLast?_reverse] at h2
  exact head?_dropWhile_false pyIsSpace h2

theorem stripL_getLast_clean {l : List Char} {c : Char} (h : (stripL l).getLast? = some c) :
    pyIsSpace c = false := by
  unfold stripL at h
  rw [List.getLast?_reverse] at h
  exact head?_dropWhile_false pyIsSpace h

theorem flatten_head_clean :
    ∀ (ls : List (List Char)), (∀ x ∈ ls, ∀ c, x.head? = some c → pyIsSpace c = false) →
      ∀ {c : Char}, ls.flatten.head? = some c → pyIsSpace c = false := by
  intro ls
  induction ls with
  | nil => intro _ c h; simp at h
  | cons x rest ih =>
    intro hcl c h
    rw [List.flatten_cons] at h
    cases x with
    | nil =>
      simp only [List.nil_append] at h
      exact ih (fun y hy => hcl y (List.mem_cons_of_mem _ hy)) h
    | cons a t =>
      rw [List.cons_append] at h
      simp at h
      subst h
      exact hcl (a :: t) (List.mem_cons_self _ _) a rfl

theorem flatten_getLast_clean
    (ls : List (List Char)) (hcl : ∀ x ∈ ls, ∀ c, x.getLast? = some c → pyIsSpace c = false)
    {c : Char} (h : ls.flatten.getLast? = some c) : pyIsSpace c = false := by
  rw [← List.head?_reverse, List.reverse_flatten] at h
  refine flatten_head_clean _ ?_ h
  intro x hx c2 hc2
  rw [List.mem_reverse, List.mem_map] at hx
  obtain ⟨y, hy, rfl⟩ := hx
  rw [List.head?_reverse] at hc2
  exact hcl y hy c2 hc2

/-- The characters produced by `get_text(strip=True)` never start or end
with whitespace. -/
theorem getTextStripL_clean (n : Node) :
    (∀ c, (getTextStripL n).head? = some c → pyIsSpace c = false) ∧
    (∀ c, (getTextStripL n).getLast? = some c → pyIsSpace c = false) := by
  constructor
  · intro c h
    refine flatten_head_clean _ ?_ h
    intro x hx c2 hc2
    rw [List.mem_map] at hx
    obtain ⟨s, _, rfl⟩ := hx
    exact stripL_head_clean hc2
  · intro c h
    refine flatten_getLast_clean _ ?_ h
    intro x hx c2 hc2
    rw [List.mem_map] at hx
    obtain ⟨s, _, rfl⟩ := hx
    exact stripL_getLast_clean hc2

/-- On a single-text-fragment node, `get_text(strip=True)` is exactly the
whole text trimmed of leading and trailing whitespace. -/
theorem getTextStrip_single (t : String) (attrs : List (String × String)) (s : String) :
    Node.getTextStrip (Node.elem t attrs [Node.text s]) = pyStrip s := by
  simp [Node.getTextStrip, getTextStripL, Node.textFragments, textFragmentsList, pyStrip]

/-! ## Table extraction lemmas -/

theorem dfWidth_cons (r : List (Option String)) (d : List (List (Option String))) :
    dfWidth (r :: d) = max r.length (dfWidth d) := rfl

theorem dfWidth_le {d : List (List (Option String))} {w : Nat}
    (h : ∀ r ∈ d, r.length ≤ w) : dfWidth d ≤ w := by
  induction d with
  | nil => exact Nat.zero_le w
  | cons r d ih =>
    rw [dfWidth_cons]
    exact max_le (h r (by simp)) (ih (fun r2 hr2 => h r2 (by simp [hr2])))

theorem padRow_eq_self {w : Nat} {r : List (Option String)} (h : r.length = w) :
    padRow w r = r := by
  simp [padRow, h]

theorem zipLongest_length (cols : List (List String)) :
    (zipLongest cols).length = maxColLen cols := by
  simp [zipLongest]

theorem zipLongest_getElem {cols : List (List String)} {i : Nat} (h : i < maxColLen cols) :
    getElem? (zipLongest cols) i = some (cols.map (fun c => getElem? c i)) := by
  simp [zipLongest, List.getElem?_range, h]

theorem zipLongest_row_length {cols : List (List String)} {r : List (Option String)}
    (h : r ∈ zipLongest cols) : r.length = cols.length := by
  simp only [zipLongest, List.mem_map] at h
  obtain ⟨i, _, rfl⟩ := h
  simp

theorem maxColLen_cons (l : List String) (cols : List (List String)) :
    maxColLen (l :: cols) = max l.length (maxColLen cols) := rfl

theorem maxColLen_ge {cols : List (List String)} : ∀ l ∈ cols, l.length ≤ maxColLen cols := by
  induction cols with
  | nil => intro l h; simp at h
  | cons x rest ih =>
    intro l h
    rw [maxColLen_cons]
    rcases List.mem_cons.mp h with rfl | h2
    · exact le_max_left _ _
    · exact le_trans (ih l h2) (le_max_right _ _)

theorem maxColLen_attained {cols : List (List String)} (h : cols ≠ []) :
    ∃ l ∈ cols, l.length = maxColLen cols := by
  induction cols with
  | nil => exact absurd rfl h
  | cons x rest ih =>
    cases rest with
    | nil => exact ⟨x, by simp, by simp [maxColLen]⟩
    | cons y r2 =>
      obtain ⟨l, hl, heq⟩ := ih (by simp)
      by_cases hc : maxColLen (y :: r2) ≤ x.length
      · exact ⟨x, by simp, by rw [maxColLen_cons, max_eq_left hc]⟩
      · exact ⟨l, by simp [hl], by rw [maxColLen_cons, max_eq_right (le_of_not_le hc)]; exact heq⟩

theorem extract_ok_raw {t : Node} (h3 : (trRows t).length = 3)
    (hw : (columnsOf t).length = dfWidth (pcfTableData t)) :
    extract_pcf_table t =
      .ok ⟨columnsOf t, (pcfTableData t).map (padRow (dfWidth (pcfTableData t)))⟩ := by
  unfold extract_pcf_table pdDataFrame
  rw [if_neg (by simp [h3])]
  rw [if_neg (by simp [pcfTableData]), if_pos hw]

theorem dfWidth_pcfTableData {t : Node}
    (hfc : (fragListsOf t).length = (columnsOf t).length)
    (hsc : (subheadersOf t).length = (columnsOf t).length) :
    dfWidth (pcfTableData t) = (columnsOf t).length := by
  unfold pcfTableData
  rw [dfWidth_cons]
  have h1 : ((subheadersOf t).map some).length = (columnsOf t).length := by simp [hsc]
  have h2 : dfWidth (zipLongest (fragListsOf t)) ≤ (columnsOf t).length :=
    dfWidth_le (fun r hr => le_of_eq (by rw [zipLongest_row_length hr, hfc]))
  rw [h1, max_eq_left h2]

theorem extract_ok_of_shape {t : Node} (h3 : (trRows t).length = 3)
    (hfc : (fragListsOf t).length = (columnsOf t).length)
    (hsc : (subheadersOf t).length = (columnsOf t).length) :
    extract_pcf_table t = .ok ⟨columnsOf t, pcfTableData t⟩ := by
  have hw := dfWidth_pcfTableData hfc hsc
  have hdata : (pcfTableData t).map (padRow (dfWidth (pcfTableData t))) = pcfTableData t := by
    apply map_self_of_fix
    intro r hr
    unfold pcfTableData at hr
    rcases List.mem_cons.mp hr with rfl | h2
    · exact padRow_eq_self (by simp [hsc, hw])
    · exact padRow_eq_self (by rw [zipLongest_row_length h2, hfc, hw])
  rw [extract_ok_raw h3 hw.symm, hdata]

/-! ## Claim C1 -/

/-- C1: for every PCF table element whose number of `tr` rows is not
exactly 3, `extract_pcf_table` raises the fatal structural error
(`NotImplementedError`, modelled as `Except.error`) and produces no
partial output: no DataFrame value is constructed or returned. -/
theorem c1_nonthree_rows_fatal (t : Node) (h : (trRows t).length ≠ 3) :
    extract_pcf_table t = .error "Extraction only support three row pcf tables." ∧
    ∀ df : DataFrame, extract_pcf_table t ≠ .ok df := by
  have he : extract_pcf_table t = .error "Extraction only support three row pcf tables." := by
    unfold extract_pcf_table
    rw [if_pos h]
  refine ⟨he, fun df hdf => ?_⟩
  rw [he] at hdf
  exact Except.noConfusion hdf

def c1table : Node :=
  Node.elem "table" [] [Node.elem "tr" [] [], Node.elem "tr" [] []]

/-- Witness for C1 at a concrete two-row table. -/
theorem c1_witness :
    (trRows c1table).length ≠ 3 ∧
    extract_pcf_table c1table = .error "Extraction only support three row pcf tables." :=
  ⟨by decide, (c1_nonthree_rows_fatal c1table (by decide)).1⟩

/-! ## Claim C2 -/

/-- C2: for every 3-row table whose last row has one `td` cell per column
(and whose subheader row likewise has one cell per column, as the
DataFrame constructor requires for the extraction to return), the rows
after the subheader row are the index-by-index zip-longest transpose of
the per-column paragraph fragment lists: the output row count is the
longest column's fragment count (an attained maximum), and row `i` holds
each column's `i`-th fragment, with `none` (the absent marker, pandas
`None`) where a shorter column has no `i`-th fragment — never truncated. -/
theorem c2_transpose_padding (t : Node)
    (h3 : (trRows t).length = 3)
    (hfc : (fragListsOf t).length = (columnsOf t).length)
    (hsc : (subheadersOf t).length = (columnsOf t).length) :
    ∃ df, extract_pcf_table t = .ok df ∧
      df.columns = columnsOf t ∧
      df.data = ((subheadersOf t).map some) :: zipLongest (fragListsOf t) ∧
      (zipLongest (fragListsOf t)).length = maxColLen (fragListsOf t) ∧
      (∀ l ∈ fragListsOf t, l.length ≤ maxColLen (fragListsOf t)) ∧
      (fragListsOf t ≠ [] → ∃ l ∈ fragListsOf t, l.length = maxColLen (fragListsOf t)) ∧
      (∀ i, i < maxColLen (fragListsOf t) →
        getElem? (zipLongest (fragListsOf t)) i =
          some ((fragListsOf t).map (fun c => getElem? c i))) :=
  ⟨⟨columnsOf t, pcfTableData t⟩, extract_ok_of_shape h3 hfc hsc, rfl, rfl,
    zipLongest_length _, maxColLen_ge, fun h => maxColLen_attained h,
    fun _ hi => zipLongest_getElem hi⟩

def thNode (s : String) : Node := Node.elem "th" [] [Node.text s]

def tdTextNode (s : String) : Node := Node.elem "td" [] [Node.text s]

def tdParas (ss : List String) : Node :=
  Node.elem "td" [] (ss.map (fun s => Node.elem "p" [] [Node.text s]))

def c2table : Node := Node.elem "table" []
  [Node.elem "tr" [] [thNode "Achieved", thNode "Not achieved"],
   Node.elem "tr" [] [tdTextNode "At least one of the following statements is true",
                      tdTextNode "All the following statements are true"],
   Node.elem "tr" [] [tdParas ["c1a", "c1b"], tdParas ["c2a"]]]

/-- Witness for C2 at a concrete 3-row table with ragged columns. -/
theorem c2_witness :
    ((trRows c2table).length = 3 ∧
      (fragListsOf c2table).length = (columnsOf c2table).length ∧
      (subheadersOf c2table).length = (columnsOf c2table).length) ∧
    (∃ df, extract_pcf_table c2table = .ok df ∧
      df.columns = columnsOf c2table ∧
      df.data = ((subheadersOf c2table).map some) :: zipLongest (fragListsOf c2table) ∧
      (zipLongest (fragListsOf c2table)).length = maxColLen (fragListsOf c2table) ∧
      (∀ l ∈ fragListsOf c2table, l.length ≤ maxColLen (fragListsOf c2table)) ∧
      (fragListsOf c2table ≠ [] →
        ∃ l ∈ fragListsOf c2table, l.length = maxColLen (fragListsOf c2table)) ∧
      (∀ i, i < maxColLen (fragListsOf c2table) →
        getElem? (zipLongest (fragListsOf c2table)) i =
          some ((fragListsOf c2table).map (fun c => getElem? c i)))) :=
  ⟨⟨by decide, by decide, by decide⟩,
    c2_transpose_padding c2table (by decide) (by decide) (by decide)⟩

/-! ## Claim C3 -/

/-- C3: for every rendered page (existence check not NotFound), link
discovery returns exactly the filtered, base-resolved links of the page
(a permutation of them) sorted ascending by the path component as a
string, for both the objective and the principle variants — a property of
the output that holds regardless of the order anchors appear in the
source HTML. -/
theorem c3_links_sorted (join : String → URLm) (env : FetchEnv)
    (h : env.status ≠ notFoundStatus) :
    ((get_caf_objective_links join env).1).Sorted pathLe ∧
    ((get_caf_objective_links join env).1).Perm
      (resolvedLinks "objective" join env.rendered) ∧
    ((get_caf_principle_links join env).1).Sorted pathLe ∧
    ((get_caf_principle_links join env).1).Perm
      (resolvedLinks "principle" join env.rendered) := by
  unfold get_caf_objective_links get_caf_principle_links
  rw [if_neg h, if_neg h]
  exact ⟨List.sorted_insertionSort _ _, List.perm_insertionSort _ _,
    List.sorted_insertionSort _ _, List.perm_insertionSort _ _⟩

def c3join : String → URLm := fun h => ⟨"caf", h⟩

def c3page : Node := Node.elem "[document]" []
  [Node.elem "a" [("href", "/b-objective")] [Node.text "B"],
   Node.elem "a" [("href", "/a-objective")] [Node.text "A"]]

def c3env : FetchEnv := ⟨200, c3page⟩

/-- Witness for C3 at a concrete page whose anchors appear in reverse
path order. -/
theorem c3_witness :
    c3env.status ≠ notFoundStatus ∧
    ((get_caf_objective_links c3join c3env).1).Sorted pathLe ∧
    ((get_caf_objective_links c3join c3env).1).Perm
      (resolvedLinks "objective" c3join c3env.rendered) :=
  ⟨by decide, (c3_links_sorted c3join c3env (by decide)).1,
    (c3_links_sorted c3join c3env (by decide)).2.1⟩

example : (get_caf_objective_links c3join c3env).1 =
    [⟨"caf", "/a-objective"⟩, ⟨"caf", "/b-objective"⟩] := by decide

/-! ## Claim C4 -/

/-- C4: when the plain HTTP existence check reports NotFound, link
discovery returns the empty sequence with no render attempted (render
count 0), `_content` is the empty document with no render attempted, and
every render-dependent field evaluated on the empty document yields its
sentinel or empty result. -/
theorem c4_not_found_shortcircuit (join : String → URLm) (env : FetchEnv)
    (h : env.status = notFoundStatus) :
    get_caf_objective_links join env = ([], 0) ∧
    get_caf_principle_links join env = ([], 0) ∧
    renderContent env = (emptySoup, 0) ∧
    accessContent env emptyPCache =
      (emptySoup, ⟨some emptySoup, none, none, none, none, none⟩, 0) ∧
    accessOContent env emptyOCache = (emptySoup, ⟨some emptySoup, none, none⟩, 0) ∧
    Principle.heading emptySoup = "error determining heading" ∧
    Objective.heading emptySoup = "error determining heading" ∧
    Principle.principle emptySoup = ["error determining principle"] ∧
    Principle.description emptySoup = ["error determining description"] ∧
    Principle.guidance emptySoup = ["error determining guidance"] ∧
    Principle.pcfs emptySoup = .ok [] := by
  refine ⟨?_, ?_, ?_, ?_, ?_, rfl, rfl, rfl, rfl, rfl, rfl⟩
  · unfold get_caf_objective_links; rw [if_pos h]
  · unfold get_caf_principle_links; rw [if_pos h]
  · unfold renderContent; rw [if_pos h]
  · simp [accessContent, emptyPCache, renderContent, h]
  · simp [accessOContent, emptyOCache, renderContent, h]

def c4page : Node := Node.elem "[document]" []
  [Node.elem "a" [("href", "/x-objective")] [Node.text "X"]]

def c4env : FetchEnv := ⟨404, c4page⟩

/-- Witness for C4 at a concrete not-found fetch. -/
theorem c4_witness :
    c4env.status = notFoundStatus ∧
    get_caf_objective_links c3join c4env = ([], 0) ∧
    renderContent c4env = (emptySoup, 0) :=
  ⟨by decide, (c4_not_found_shortcircuit c3join c4env (by decide)).1,
    (c4_not_found_shortcircuit c3join c4env (by decide)).2.2.1⟩

/-! ## Claim C5 -/

/-- The behaviour the spec ascribes to a section extractor: sentinel
exactly when the heading is absent or the heading's parent has no
paragraphs, else the stripped paragraph texts in document order. -/
def sectionBehaves (sec : Node → List String) (w sentinel : String) : Prop :=
  ∀ doc : Node,
    (Node.findWP (isH2WithWord w) doc = none → sec doc = [sentinel]) ∧
    (∀ pr : Node × Node, Node.findWP (isH2WithWord w) doc = some pr →
      ((pr.2.find_all (isTagNamed "p")) = [] → sec doc = [sentinel]) ∧
      ((pr.2.find_all (isTagNamed "p")) ≠ [] →
        sec doc = (pr.2.find_all (isTagNamed "p")).map Node.getTextStrip))

theorem extractSection_behaves (w sentinel : String) :
    sectionBehaves (fun doc => extractSection doc w sentinel) w sentinel := by
  intro doc
  constructor
  · intro h; simp only [extractSection]; rw [h]
  · intro pr h
    constructor
    · intro hp
      simp only [extractSection]
      rw [h]
      simp [hp]
    · intro hp
      simp only [extractSection]
      rw [h]
      simp only []
      rw [if_neg (by simpa using hp)]

/-- C5: section extraction is a total function (never raises): for each of
the three sections, the result is the one-element sentinel sequence
exactly in the absence cases (no matching heading — the source's
additional no-parent case is vacuous in a document tree — or no paragraph
descendants of the heading's parent), and otherwise the stripped text of
every paragraph of the heading's parent in document order. -/
theorem c5_sections_sentinel_or_paragraphs :
    sectionBehaves Principle.principle "Principle" "error determining principle" ∧
    sectionBehaves Principle.description "Description" "error determining description" ∧
    sectionBehaves Principle.guidance "Guidance" "error determining guidance" :=
  ⟨extractSection_behaves _ _, extractSection_behaves _ _, extractSection_behaves _ _⟩

def c5h2 : Node := Node.elem "h2" [] [Node.text " Principle "]

def c5div : Node := Node.elem "div" []
  [c5h2, Node.elem "p" [] [Node.text " P1 "], Node.elem "p" [] [Node.text "P2"]]

def c5doc : Node := Node.elem "[document]" [] [c5div]

/-- Witness for C5 at a concrete principle page section. -/
theorem c5_witness :
    Principle.principle c5doc = (c5div.find_all (isTagNamed "p")).map Node.getTextStrip ∧
    Principle.principle c5doc = ["P1", "P2"] := by
  have h := ((c5_sections_sentinel_or_paragraphs.1 c5doc).2 (c5h2, c5div) rfl).2
    (fun hx => absurd (congrArg List.length hx) (by decide))
  exact ⟨h, by rw [h]; rfl⟩

/-! ## Claim C6 -/

/-- C6: every memoized computed field is evaluated at most once per
instance: whatever a first access of a field returns, any later access of
the same field on the resulting cache state returns the identical value
and state with zero further fetches/renders.  (For `pcfs` this concerns
completed, non-raising first accesses; a raised table-shape exception
aborts the run and, as with `cached_property`, caches nothing.) -/
theorem c6_memoized_at_most_once :
    (∀ (env : FetchEnv) (s : PCache) (v : Node) (s1 : PCache) (k : Nat),
      accessContent env s = (v, s1, k) → accessContent env s1 = (v, s1, 0)) ∧
    (∀ (env : FetchEnv) (s : PCache) (v : String) (s1 : PCache) (k : Nat),
      accessHeading env s = (v, s1, k) → accessHeading env s1 = (v, s1, 0)) ∧
    (∀ (env : FetchEnv) (s : PCache) (v : List String) (s1 : PCache) (k : Nat),
      accessPrinciple env s = (v, s1, k) → accessPrinciple env s1 = (v, s1, 0)) ∧
    (∀ (env : FetchEnv) (s : PCache) (v : List String) (s1 : PCache) (k : Nat),
      accessDescription env s = (v, s1, k) → accessDescription env s1 = (v, s1, 0)) ∧
    (∀ (env : FetchEnv) (s : PCache) (v : List String) (s1 : PCache) (k : Nat),
      accessGuidance env s = (v, s1, k) → accessGuidance env s1 = (v, s1, 0)) ∧
    (∀ (env : FetchEnv) (s : PCache) (v : List (String × List String × DataFrame))
        (s1 : PCache) (k : Nat),
      accessPcfs env s = (.ok v, s1, k) → accessPcfs env s1 = (.ok v, s1, 0)) ∧
    (∀ (env : FetchEnv) (s : OCache) (v : Node) (s1 : OCache) (k : Nat),
      accessOContent env s = (v, s1, k) → accessOContent env s1 = (v, s1, 0)) ∧
    (∀ (env : FetchEnv) (s : OCache) (v : String) (s1 : OCache) (k : Nat),
      accessOHeading env s = (v, s1, k) → accessOHeading env s1 = (v, s1, 0)) ∧
    (∀ (join : String → URLm) (env : FetchEnv) (s : OCache) (v : List URLm)
        (s1 : OCache) (k : Nat),
      accessPrinciples join env s = (v, s1, k) → accessPrinciples join env s1 = (v, s1, 0)) := by
  refine ⟨?_, ?_, ?_, ?_, ?_, ?_, ?_, ?_, ?_⟩
  · intro env s v s1 k h
    cases hs : s.cContent with
    | some w =>
      simp only [accessContent, hs, Prod.mk.injEq] at h
      obtain ⟨rfl, rfl, -⟩ := h
      simp [accessContent, hs]
    | none =>
      simp only [accessContent, hs, Prod.mk.injEq] at h
      obtain ⟨rfl, rfl, -⟩ := h
      rfl
  · intro env s v s1 k h
    cases hs : s.cHeading with
    | some w =>
      simp only [accessHeading, hs, Prod.mk.injEq] at h
      obtain ⟨rfl, rfl, -⟩ := h
      simp [accessHeading, hs]
    | none =>
      simp only [accessHeading, hs, Prod.mk.injEq] at h
      obtain ⟨rfl, rfl, -⟩ := h
      rfl
  · intro env s v s1 k h
    cases hs : s.cPrinciple with
    | some w =>
      simp only [accessPrinciple, hs, Prod.mk.injEq] at h
      obtain ⟨rfl, rfl, -⟩ := h
      simp [accessPrinciple, hs]
    | none =>
      simp only [accessPrinciple, hs, Prod.mk.injEq] at h
      obtain ⟨rfl, rfl, -⟩ := h
      rfl
  · intro env s v s1 k h
    cases hs : s.cDescription with
    | some w =>
      simp only [accessDescription, hs, Prod.mk.injEq] at h
      obtain ⟨rfl, rfl, -⟩ := h
      simp [accessDescription, hs]
    | none =>
      simp only [accessDescription, hs, Prod.mk.injEq] at h
      obtain ⟨rfl, rfl, -⟩ := h
      rfl
  · intro env s v s1 k h
    cases hs : s.cGuidance with
    | some w =>
      simp only [accessGuidance, hs, Prod.mk.injEq] at h
      obtain ⟨rfl, rfl, -⟩ := h
      simp [accessGuidance, hs]
    | none =>
      simp only [accessGuidance, hs, Prod.mk.injEq] at h
      obtain ⟨rfl, rfl, -⟩ := h
      rfl
  · intro env s v s1 k h
    cases hs : s.cPcfs with
    | some w =>
      simp only [accessPcfs, hs, Prod.mk.injEq, Except.ok.injEq] at h
      obtain ⟨rfl, rfl, -⟩ := h
      simp [accessPcfs, hs]
    | none =>
      cases hp : Principle.pcfs (accessContent env s).1 with
      | ok w =>
        simp only [accessPcfs, hs, hp, Prod.mk.injEq, Except.ok.injEq] at h
        obtain ⟨rfl, rfl, -⟩ := h
        rfl
      | error e =>
        simp only [accessPcfs, hs, hp, Prod.mk.injEq] at h
        exact Except.noConfusion h.1
  · intro env s v s1 k h
    cases hs : s.cContent with
    | some w =>
      simp only [accessOContent, hs, Prod.mk.injEq] at h
      obtain ⟨rfl, rfl, -⟩ := h
      simp [accessOContent, hs]
    | none =>
      simp only [accessOContent, hs, Prod.mk.injEq] at h
      obtain ⟨rfl, rfl, -⟩ := h
      rfl
  · intro env s v s1 k h
    cases hs : s.cHeading with
    | some w =>
      simp only [accessOHeading, hs, Prod.mk.injEq] at h
      obtain ⟨rfl, rfl, -⟩ := h
      simp [accessOHeading, hs]
    | none =>
      simp only [accessOHeading, hs, Prod.mk.injEq] at h
      obtain ⟨rfl, rfl, -⟩ := h
      rfl
  · intro join env s v s1 k h
    cases hs : s.cPrinciples with
    | some w =>
      simp only [accessPrinciples, hs, Prod.mk.injEq] at h
      obtain ⟨rfl, rfl, -⟩ := h
      simp [accessPrinciples, hs]
    | none =>
      simp only [accessPrinciples, hs, Prod.mk.injEq] at h
      obtain ⟨rfl, rfl, -⟩ := h
      rfl

def c6env : FetchEnv := ⟨404, emptySoup⟩

/-- Witness for C6: a concrete first `_content` access followed by a
second access that returns the identical value and state with no fetch. -/
theorem c6_witness :
    accessContent c6env emptyPCache =
      (emptySoup, ⟨some emptySoup, none, none, none, none, none⟩, 0) ∧
    accessContent c6env ⟨some emptySoup, none, none, none, none, none⟩ =
      (emptySoup, ⟨some emptySoup, none, none, none, none, none⟩, 0) :=
  ⟨rfl, c6_memoized_at_most_once.1 c6env emptyPCache emptySoup
    ⟨some emptySoup, none, none, none, none, none⟩ 0 rfl⟩

/-! ## Claim C9 -/

theorem reSubChars_eq_map (l : List Char) : reSubChars l = l.map specReplaceChar := by
  induction l with
  | nil => rfl
  | cons c cs ih =>
    by_cases h1 : c = '\u202F'
    · subst h1
      show ' ' :: reSubChars cs = specReplaceChar '\u202F' :: cs.map specReplaceChar
      rw [ih]
      simp [specReplaceChar]
    · by_cases h2 : c = '\u2019'
      · subst h2
        show '\x27' :: reSubChars cs = specReplaceChar '\u2019' :: cs.map specReplaceChar
        rw [ih]
        simp [specReplaceChar]
      · have hb1 : (c == '\u202F') = false := beq_eq_false_iff_ne.mpr h1
        have hb2 : (c == '\u2019') = false := beq_eq_false_iff_ne.mpr h2
        have hl : unicode_replacements.lookup c = none := by
          simp [unicode_replacements, List.lookup, hb1, hb2]
        simp only [reSubChars, hl]
        rw [List.map_cons]
        have hsc : specReplaceChar c = c := by simp [specReplaceChar, h1, h2]
        rw [hsc, ih]

/-- C9: the final normalization pass preserves the length of the text,
rewrites each narrow no-break space (U+202F) to a regular space and each
right single quotation mark (U+2019) to a straight apostrophe, and leaves
every other character unchanged at its position. -/
theorem c9_normalization (s : String) :
    (normalizeOutput s).data.length = s.data.length ∧
    (∀ (i : Nat) (c : Char), getElem? s.data i = some c →
      (c = '\u202F' → getElem? (normalizeOutput s).data i = some ' ') ∧
      (c = '\u2019' → getElem? (normalizeOutput s).data i = some '\x27') ∧
      (c ≠ '\u202F' → c ≠ '\u2019' → getElem? (normalizeOutput s).data i = some c)) := by
  have hd : (normalizeOutput s).data = s.data.map specReplaceChar := reSubChars_eq_map s.data
  constructor
  · rw [hd]
    exact List.length_map _ _
  · intro i c hc
    have hg : getElem? (normalizeOutput s).data i = some (specReplaceChar c) := by
      rw [hd, List.getElem?_map, hc]
      rfl
    refine ⟨?_, ?_, ?_⟩
    · intro h1
      subst h1
      rw [hg]
      decide
    · intro h2
      subst h2
      rw [hg]
      decide
    · intro h1 h2
      rw [hg]
      congr 1
      simp [specReplaceChar, h1, h2]

def c9text : String := "a\u202Fb\u2019c"

/-- Witness for C9 at a concrete string containing both special
characters. -/
theorem c9_witness :
    getElem? c9text.data 1 = some '\u202F' ∧
    getElem? (normalizeOutput c9text).data 1 = some ' ' ∧
    (normalizeOutput c9text).data.length = c9text.data.length :=
  ⟨by decide, ((c9_normalization c9text).2 1 '\u202F' (by decide)).1 rfl,
    (c9_normalization c9text).1⟩

/-! ## Claim C10 -/

/-- C10: both heading operations are driven by the same subheading search;
`Principle.heading` returns the stripped text while `Objective.heading`
returns the raw `tag.text`, so on any page whose subheading text carries
leading or trailing whitespace the two operations disagree, and they can
agree only when the text has no surrounding whitespace. -/
theorem c10_heading_strip_vs_raw (doc tag : Node)
    (h : findSubHeading doc = some tag) :
    Principle.heading doc = tag.getTextStrip ∧
    Objective.heading doc = tag.getTextRaw ∧
    (((∃ c, (tag.getTextRaw).data.head? = some c ∧ pyIsSpace c = true) ∨
      (∃ c, (tag.getTextRaw).data.getLast? = some c ∧ pyIsSpace c = true)) →
      Principle.heading doc ≠ Objective.heading doc) ∧
    (Principle.heading doc = Objective.heading doc →
      ¬((∃ c, (tag.getTextRaw).data.head? = some c ∧ pyIsSpace c = true) ∨
        (∃ c, (tag.getTextRaw).data.getLast? = some c ∧ pyIsSpace c = true))) := by
  have hp : Principle.heading doc = tag.getTextStrip := by
    unfold Principle.heading
    rw [h]
  have ho : Objective.heading doc = tag.getTextRaw := by
    unfold Objective.heading
    rw [h]
  have key : ((∃ c, (tag.getTextRaw).data.head? = some c ∧ pyIsSpace c = true) ∨
      (∃ c, (tag.getTextRaw).data.getLast? = some c ∧ pyIsSpace c = true)) →
      Principle.heading doc ≠ Objective.heading doc := by
    intro hws heq
    rw [hp, ho] at heq
    have hdata : getTextStripL tag = getTextRawL tag := congrArg String.data heq
    rcases hws with ⟨c, hc, hcs⟩ | ⟨c, hc, hcs⟩
    · have hh : (getTextStripL tag).head? = some c := by rw [hdata]; exact hc
      have hf := (getTextStripL_clean tag).1 c hh
      rw [hcs] at hf
      exact Bool.noConfusion hf
    · have hh : (getTextStripL tag).getLast? = some c := by rw [hdata]; exact hc
      have hf := (getTextStripL_clean tag).2 c hh
      rw [hcs] at hf
      exact Bool.noConfusion hf
  exact ⟨hp, ho, key, fun heq hws => key hws heq⟩

def c10h1 : Node := Node.elem "h1" [("class", "subHeading")] [Node.text " Objective A "]

def c10doc : Node := Node.elem "[document]" [] [c10h1]

/-- Witness for C10 at a concrete page whose subheading text has
surrounding whitespace: the two heading operations disagree. -/
theorem c10_witness :
    findSubHeading c10doc = some c10h1 ∧
    Principle.heading c10doc ≠ Objective.heading c10doc :=
  ⟨rfl, (c10_heading_strip_vs_raw c10doc c10h1 rfl).2.2.1 (Or.inl ⟨' ', by decide⟩)⟩

example : Principle.heading c10doc = "Objective A" := rfl

example : Objective.heading c10doc = " Objective A " := rfl

/-! ## Claim C8 (corrected) -/

def c8table : Node := Node.elem "table" []
  [Node.elem "tr" [] [thNode "Achieved"],
   Node.elem "tr" [] [tdTextNode "s1", tdTextNode "s2"],
   Node.elem "tr" [] [tdParas ["a1"], tdParas ["b1"]]]

/-- Counterexample for C8 as stated: table extraction on a 3-row table can
raise — here the DataFrame constructor rejects one column label against
two-cell-wide data rows — so a mismatched cell count is NOT absorbed
locally and the fixed-row-count violation is not the only fatal error. -/
theorem c8_counterexample :
    (trRows c8table).length = 3 ∧
    extract_pcf_table c8table =
      .error "columns passed, passed data had a different number of columns" :=
  ⟨by decide, rfl⟩

/-- C8 (amended): the fixed-row-count violation is fatal; missing PCF
headings, details or blocks degrade to sentinels or empty sequences; but
3-row table extraction is raise-free exactly when the header-cell count
equals the width of the data rows — with mismatched cell counts the
DataFrame constructor's column-count error also raises fatally. -/
theorem c8_amended_error_policy :
    (∀ t : Node, (trRows t).length ≠ 3 →
      extract_pcf_table t = .error "Extraction only support three row pcf tables.") ∧
    (∀ t : Node, (trRows t).length = 3 →
      (columnsOf t).length = dfWidth (pcfTableData t) →
      ∃ df, extract_pcf_table t = .ok df) ∧
    (∀ t : Node, (trRows t).length = 3 →
      (columnsOf t).length ≠ dfWidth (pcfTableData t) →
      extract_pcf_table t =
        .error "columns passed, passed data had a different number of columns") ∧
    (∀ doc : Node, filteredPcfBlocks doc = [] → Principle.pcfs doc = .ok []) ∧
    (∀ b tb : Node, Node.findFirst b (isTagNamed "table") = some tb →
      (trRows tb).length = 3 →
      (columnsOf tb).length = dfWidth (pcfTableData tb) →
      ∃ df, pcfOfBlock b = .ok (pcfHeadingOf b, pcfDetailsOf b, df) ∧
        (Node.findFirst b (isTagNamed "h3") = none →
          pcfHeadingOf b = "error determining pcf heading") ∧
        (b.find_all (isTagNamed "em") = [] →
          pcfDetailsOf b = ["error determining guidance"])) := by
  refine ⟨?_, ?_, ?_, ?_, ?_⟩
  · intro t h
    unfold extract_pcf_table
    rw [if_pos h]
  · intro t h3 hw
    exact ⟨_, extract_ok_raw h3 hw⟩
  · intro t h3 hw
    unfold extract_pcf_table pdDataFrame
    rw [if_neg (by simp [h3])]
    rw [if_neg (by simp [pcfTableData]), if_neg hw]
  · intro doc h
    unfold Principle.pcfs
    rw [h]
    rfl
  · intro b tb hfind h3 hw
    refine ⟨⟨columnsOf tb, (pcfTableData tb).map (padRow (dfWidth (pcfTableData tb)))⟩,
      ?_, ?_, ?_⟩
    · simp only [pcfOfBlock, hfind]
      rw [extract_ok_raw h3 hw]
      rfl
    · intro hh
      simp only [pcfHeadingOf, hh]
    · intro he
      simp [pcfDetailsOf, he]

def c8oktable : Node := Node.elem "table" []
  [Node.elem "tr" [] [thNode "A"],
   Node.elem "tr" [] [tdTextNode "s"],
   Node.elem "tr" [] [tdParas ["x", "y"]]]

/-- Witness for the amended C8 at a concrete well-shaped 3-row table. -/
theorem c8_witness :
    ((trRows c8oktable).length = 3 ∧
      (columnsOf c8oktable).length = dfWidth (pcfTableData c8oktable)) ∧
    (∃ df, extract_pcf_table c8oktable = .ok df) :=
  ⟨⟨by decide, by decide⟩, c8_amended_error_policy.2.1 c8oktable (by decide) (by decide)⟩

/-! ## Claim C7 (corrected) -/

/-- A JSON value, for comparing serialized shapes. -/
inductive JVal where
  | jnull : JVal
  | jstr (s : String) : JVal
  | jarr (elems : List JVal) : JVal
  | jobj (fields : List (String × JVal)) : JVal

/-- A cell value as `json.dumps` renders it: `None` becomes null. -/
def jsonCell : Option String → JVal
  | none => .jnull
  | some s => .jstr s

/-- The JSON shape of the code's serialized table: `to_dict()` takes each
column label to an object keyed by the decimal row index (json.dumps
renders the integer keys of the inner dict as strings). -/
def jsonOfCodeTable (df : DataFrame) : JVal :=
  .jobj ((DataFrame.to_dict df).map (fun cv =>
    (cv.1, .jobj (cv.2.map (fun iv => (toString iv.1, jsonCell iv.2))))))

/-- Modelled from the spec: "a plain mapping of column-name → ordered list
of values (including padded absent entries, represented as a null/empty
marker)" — each column label maps to the JSON array of its values in row
order. -/
def jsonOfSpecTable (df : DataFrame) : JVal :=
  .jobj ((List.range df.columns.length).map (fun j =>
    (df.columns.getD j "", .jarr (df.data.map (fun r => jsonCell (r.getD j none))))))

/-- Whether the first column of a serialized table is rendered as a JSON
array (as the spec's "ordered list" prescribes). -/
def firstColHoldsArray : JVal → Bool
  | .jobj ((_, .jarr _) :: _) => true
  | _ => false

def c7table : Node := Node.elem "table" []
  [Node.elem "tr" [] [thNode "Achieved"],
   Node.elem "tr" [] [tdTextNode "s"],
   Node.elem "tr" [] [tdParas ["x"]]]

def c7df : DataFrame := ⟨["Achieved"], [[some "s"], [some "x"]]⟩

/-- Counterexample for C7 as stated: the code's serialization maps each
column to a row-index-keyed mapping, not to the plain ordered list of the
column's values — at a concrete extracted table the two JSON shapes
differ. -/
theorem c7_counterexample :
    extract_pcf_table c7table = .ok c7df ∧
    DataFrame.to_dict c7df = [("Achieved", [(0, some "s"), (1, some "x")])] ∧
    firstColHoldsArray (jsonOfCodeTable c7df) = false ∧
    firstColHoldsArray (jsonOfSpecTable c7df) = true ∧
    jsonOfCodeTable c7df ≠ jsonOfSpecTable c7df :=
  ⟨rfl, by decide, rfl, rfl,
    fun h => absurd (congrArg firstColHoldsArray h) (by decide)⟩

/-- C7 (amended): serialization keeps each PCF heading and details and
replaces its DataFrame by `to_dict()`, which maps each column label to its
values keyed by row index in row order: indices are `0, 1, ...`, the value
at index 0 is the column's subheader entry, and the value at index `i+1`
is the column's `i`-th transposed fragment — `none` (serialized null)
where a shorter column was padded. -/
theorem c7_amended_serialization (t : Node) (df : DataFrame)
    (h3 : (trRows t).length = 3)
    (hfc : (fragListsOf t).length = (columnsOf t).length)
    (hsc : (subheadersOf t).length = (columnsOf t).length)
    (hdf : extract_pcf_table t = .ok df) :
    (∀ l, serialize_pcfs l = l.map (fun x => (x.1, x.2.1, DataFrame.to_dict x.2.2))) ∧
    (∀ (j : Nat) (colName : String), getElem? df.columns j = some colName →
      ∃ inner, getElem? (DataFrame.to_dict df) j = some (colName, inner) ∧
        inner.map Prod.fst = List.range df.data.length ∧
        inner.map Prod.snd = df.data.map (fun r => r.getD j none) ∧
        getElem? (df.data.map (fun r => r.getD j none)) 0 =
          some (some ((subheadersOf t).getD j "")) ∧
        (∀ (i : Nat) (colL : List String), getElem? (fragListsOf t) j = some colL →
          i < maxColLen (fragListsOf t) →
          getElem? (df.data.map (fun r => r.getD j none)) (i + 1) =
            some (getElem? colL i))) := by
  have hdf2 : df = ⟨columnsOf t, pcfTableData t⟩ := by
    rw [extract_ok_of_shape h3 hfc hsc] at hdf
    exact (Except.ok.inj hdf).symm
  subst hdf2
  refine ⟨fun l => rfl, ?_⟩
  intro j colName hcol
  have hj : j < (columnsOf t).length := by
    by_contra hlt
    rw [List.getElem?_eq_none (le_of_not_lt hlt)] at hcol
    exact Option.noConfusion hcol
  refine ⟨(pcfTableData t).enum.map (fun ir => (ir.1, ir.2.getD j none)), ?_, ?_, ?_, ?_, ?_⟩
  · show getElem? ((List.range (columnsOf t).length).map _) j = _
    rw [List.getElem?_map, List.getElem?_range hj]
    show some ((columnsOf t).getD j "", _) = _
    rw [List.getD_eq_getElem?_getD, hcol]
    rfl
  · rw [List.map_map]
    show (pcfTableData t).enum.map Prod.fst = _
    rw [List.enum_map_fst]
  · rw [List.map_map]
    show (pcfTableData t).enum.map ((fun r => r.getD j none) ∘ Prod.snd) = _
    rw [← List.map_map, List.enum_map_snd]
  · show getElem? ((((subheadersOf t).map some) :: zipLongest (fragListsOf t)).map _) 0 = _
    rw [List.getElem?_map, List.getElem?_cons_zero]
    have hs2 : ((subheadersOf t).map some).getD j none =
        some ((subheadersOf t).getD j "") := by
      have hjs : j < (subheadersOf t).length := by rw [hsc]; exact hj
      rw [List.getD_eq_getElem?_getD, List.getD_eq_getElem?_getD, List.getElem?_map,
        List.getElem?_eq_getElem hjs]
      rfl
    show some (((subheadersOf t).map some).getD j none) = _
    rw [hs2]
  · intro i colL hcolL hi
    rw [List.getElem?_map]
    have hzl : getElem? (pcfTableData t) (i + 1) =
        some ((fragListsOf t).map (fun c => getElem? c i)) := by
      show getElem? (_ :: zipLongest (fragListsOf t)) (i + 1) = _
      rw [List.getElem?_cons_succ]
      exact zipLongest_getElem hi
    rw [hzl]
    have hcell : ((fragListsOf t).map (fun c => getElem? c i)).getD j none =
        getElem? colL i := by
      rw [List.getD_eq_getElem?_getD, List.getElem?_map, hcolL]
      rfl
    show some (((fragListsOf t).map (fun c => getElem? c i)).getD j none) = _
    rw [hcell]

/-- Witness for the amended C7 at a concrete extracted table. -/
theorem c7_witness :
    ((trRows c7table).length = 3 ∧
      (fragListsOf c7table).length = (columnsOf c7table).length ∧
      (subheadersOf c7table).length = (columnsOf c7table).length ∧
      extract_pcf_table c7table = .ok c7df ∧
      getElem? c7df.columns 0 = some "Achieved") ∧
    (∃ inner, getElem? (DataFrame.to_dict c7df) 0 = some ("Achieved", inner) ∧
      inner.map Prod.fst = List.range c7df.data.length ∧
      inner.map Prod.snd = c7df.data.map (fun r => r.getD 0 none) ∧
      getElem? (c7df.data.map (fun r => r.getD 0 none)) 0 =
        some (some ((subheadersOf c7table).getD 0 "")) ∧
      (∀ (i : Nat) (colL : List String), getElem? (fragListsOf c7table) 0 = some colL →
        i < maxColLen (fragListsOf c7table) →
        getElem? (c7df.data.map (fun r => r.getD 0 none)) (i + 1) =
          some (getElem? colL i))) :=
  ⟨⟨by decide, by decide, by decide, rfl, by decide⟩,
    (c7_amended_serialization c7table c7df (by decide) (by decide) (by decide)
      rfl).2 0 "Achieved" (by decide)⟩

end NCSC

